import Mathlib

/-!
Verification of the icechips build/test tooling layer (FuseSoC core-file
generator and test runners) against its natural-language specification.

The JavaScript sources are shallowly embedded: every function is translated
into a pure, executable Lean definition.  Filesystem state is modelled as an
association list from absolute path to file contents; `fs`/`JSON` failures
are modelled with `Except`.  JavaScript regular expression character classes
are modelled over their ASCII ranges (`\s`, `\w`, `[0-9]`), which covers all
inputs the tooling is specified to handle.
-/

namespace IceChips

/-- ASCII model of the JS regex class `\s` (whitespace). -/
def isSpaceChar (c : Char) : Bool :=
  c == ' ' || c == '\t' || c == '\n' || c == '\r' || c == '\x0b' || c == '\x0c'

/-- JS line terminators recognised by the `m` (multiline) regex flag,
restricted to ASCII. -/
def isNewlineChar (c : Char) : Bool :=
  c == '\n' || c == '\r'

/-- ASCII model of the JS regex class `\w` (word character). -/
def isWordChar (c : Char) : Bool :=
  c.isAlpha || c.isDigit || c == '_'

/-- Model of JS `String.prototype.includes`: `pat` occurs contiguously in the
character list. -/
def containsSeq (pat : List Char) : List Char → Bool
  | [] => pat.isPrefixOf []
  | c :: rest => pat.isPrefixOf (c :: rest) || containsSeq pat rest

/-- Model of JS `String.prototype.includes` on strings. -/
def strIncludes (s pat : String) : Bool :=
  containsSeq pat.data s.data

/-- Model of JS `String.prototype.endsWith`. -/
def strEndsWith (s pat : String) : Bool :=
  pat.data.isSuffixOf s.data

/-- Model of Node `path.join` for the two-argument calls made by the
scripts (both arguments non-empty, no trailing separators). -/
def pathJoin (a b : String) : String :=
  a ++ "/" ++ b

/-- Attempt of the module-declaration regex
`^\s*module\s+(\w+)\s*(?:#|\(|;)` at one position of the input (the
position itself must be a line start; that is the caller's obligation).
Returns the captured identifier characters. -/
def matchModuleAt (cs : List Char) : Option (List Char) :=
  let afterLead := cs.dropWhile isSpaceChar
  match "module".data.isPrefixOf afterLead with
  | true =>
    match afterLead.drop 6 with
    | [] => none
    | c :: rest =>
      match isSpaceChar c with
      | true =>
        let afterWs := (c :: rest).dropWhile isSpaceChar
        match afterWs.takeWhile isWordChar with
        | [] => none
        | n :: ame =>
          match (afterWs.dropWhile isWordChar).dropWhile isSpaceChar with
          | '#' :: _ => some (n :: ame)
          | '(' :: _ => some (n :: ame)
          | ';' :: _ => some (n :: ame)
          | _ => none
      | false => none
  | false => none

/-- Scan all line-start positions of the input in order, returning the first
successful attempt of the module-declaration pattern.  `atStart` records
whether the current position is a line start (the string start, or the
position right after a line terminator — the positions at which `^` can
match under the `m` flag). -/
def scanModule : List Char → Bool → Option (List Char)
  | [], _ => none
  | c :: rest, atStart =>
    match atStart with
    | true =>
      match matchModuleAt (c :: rest) with
      | some n => some n
      | none => scanModule rest (isNewlineChar c)
    | false => scanModule rest (isNewlineChar c)

/-- `extractModuleName` from `generate-core.js`: first match of
`/^\s*module\s+(\w+)\s*(?:#|\(|;)/m` in the text, or `none`. -/
def extractModuleName (verilogContent : String) : Option String :=
  (scanModule verilogContent.data true).map fun l => String.mk l

/-- JS string truthiness applied by `x || dflt`: `null`/absent and the empty
string are falsy and select the default. -/
def jsOrDefault (v : Option String) (dflt : String) : String :=
  match v with
  | none => dflt
  | some s => if s = "" then dflt else s

/-- A thrown JS error, identified by its `message`. -/
structure JsError where
  message : String
deriving DecidableEq

/-- The decoded project manifest (`package.json`): only its optional
`version` field is consumed by this system. -/
structure PackageJson where
  version : Option String
deriving DecidableEq

/-- The ambient state a script invocation sees: the filesystem as a map from
absolute path to text contents, and the behaviour of `JSON.parse` on file
contents (abstracted, since JSON decoding is a host-language builtin). -/
structure ProjectState where
  files : List (String × String)
  parseManifest : String → Except JsError PackageJson

/-- Model of `fs.readFileSync(p, "utf8")`: the contents, or a thrown
ENOENT-style error. -/
def readFileFs (st : ProjectState) (p : String) : Except JsError String :=
  match st.files.lookup p with
  | some content => Except.ok content
  | none => Except.error ⟨"ENOENT: no such file or directory, open \x27" ++ p ++ "\x27"⟩

/-- Modelled from the spec: `FsReadFileHelper.isExistingFile` lives in
`scripts/common/fs-file-helper.js`, which is not among the provided sources.
Per §4.1 it returns true iff the file, resolved relative to the helper's
base directory, exists; it never throws. -/
def isExistingFile (st : ProjectState) (baseDir fileName : String) : Bool :=
  (st.files.lookup (pathJoin baseDir fileName)).isSome

/-- Modelled from the spec: `FsReadFileHelper.readFile` (see
`isExistingFile`).  Per §4.1 it returns the full text contents and fails
with a NotFound-style error, propagated to the caller, if the file does not
exist. -/
def readFileHelper (st : ProjectState) (baseDir fileName : String) : Except JsError String :=
  readFileFs st (pathJoin baseDir fileName)

/-- `getVersionFromPackageJson` from `generate-core.js`: read and JSON-parse
`<projectRoot>/package.json` (either step may throw), then
`packageJson.version || "0.1.0"`. -/
def getVersionFromPackageJson (st : ProjectState) (projectRoot : String) :
    Except JsError String := do
  let packageJsonPath := pathJoin projectRoot "package.json"
  let content ← readFileFs st packageJsonPath
  let packageJson ← st.parseManifest content
  return jsOrDefault packageJson.version "0.1.0"

/-- `generateCoreFile` from `generate-core.js`: the interpolated FuseSoC
core-file template, reproduced verbatim (template-literal newlines written
as `\n`). -/
def generateCoreFile (chipNumber version rtlModuleName tbModuleName : String) : String :=
  let coreName := "icechips:ttl:" ++ chipNumber ++ ":" ++ version
  "CAPI=2:\nname: " ++ coreName ++
  "\n\n# Note: File order matters for iverilog! RTL must come last because\n# the testbench instantiates the DUT module, so the module must be\n# defined before instantiation. Iverilog processes files sequentially\n# and doesn\x27t do multiple passes.\n# Macro dependencies must also be defined first.\n\nfilesets:\n  rtl:\n    files:\n      - includes/helper.v\n      - source-7400/" ++ chipNumber ++
  ".v\n    file_type: verilogSource\n\n  tb:\n    files:\n      - includes/tbhelper.v\n      - source-7400/" ++ chipNumber ++
  "-tb.v\n    file_type: verilogSource\n\ntargets:\n  default:\n    filesets: [rtl]\n    toplevel: " ++ rtlModuleName ++
  "\n  sim:\n    filesets: [tb, rtl]\n    toplevel: " ++ tbModuleName ++
  "\n    default_tool: icarus\n    tools:\n      icarus: \x7biverilog_options: [-g2012]\x7d\n"

/-- Join lines with the newline separator (used to state the spec §6
manifest template line by line). -/
def joinLines : List String → String
  | [] => ""
  | [l] => l
  | l :: ls => l ++ "\n" ++ joinLines ls

/-- The manifest template exactly as displayed in spec §6, one entry per
displayed line, with the four values interpolated at the documented
positions; the final `""` yields the trailing newline. -/
def renderManifestSpec (chipIdentifier version rtlModuleName tbModuleName : String) : String :=
  joinLines
    [ "CAPI=2:"
    , "name: icechips:ttl:" ++ chipIdentifier ++ ":" ++ version
    , ""
    , "# Note: File order matters for iverilog! RTL must come last because"
    , "# the testbench instantiates the DUT module, so the module must be"
    , "# defined before instantiation. Iverilog processes files sequentially"
    , "# and doesn\x27t do multiple passes."
    , "# Macro dependencies must also be defined first."
    , ""
    , "filesets:"
    , "  rtl:"
    , "    files:"
    , "      - includes/helper.v"
    , "      - source-7400/" ++ chipIdentifier ++ ".v"
    , "    file_type: verilogSource"
    , ""
    , "  tb:"
    , "    files:"
    , "      - includes/tbhelper.v"
    , "      - source-7400/" ++ chipIdentifier ++ "-tb.v"
    , "    file_type: verilogSource"
    , ""
    , "targets:"
    , "  default:"
    , "    filesets: [rtl]"
    , "    toplevel: " ++ rtlModuleName
    , "  sim:"
    , "    filesets: [tb, rtl]"
    , "    toplevel: " ++ tbModuleName
    , "    default_tool: icarus"
    , "    tools:"
    , "      icarus: \x7biverilog_options: [-g2012]\x7d"
    , "" ]

/-- The Result object returned by `generateCoreForChip` (success flag,
message, and on success the chip number and both module names). -/
structure GenResult where
  success : Bool
  message : String
  chipNumber : Option String := none
  rtlModuleName : Option String := none
  tbModuleName : Option String := none
deriving DecidableEq

/-- `version || getVersionFromPackageJson(projectRoot)` — the version
resolution step at the top of `generateCoreForChip` (and of the CLI
`main`). -/
def resolveVersion (st : ProjectState) (projectRoot : String) (version : Option String) :
    Except JsError String :=
  match version with
  | some v => if v = "" then getVersionFromPackageJson st projectRoot else Except.ok v
  | none => getVersionFromPackageJson st projectRoot

/-- The body of the `try` block of `generateCoreForChip` from
`generate-core.js`.  The returned pair is the Result object together with
the list of `fs.writeFileSync` calls performed (path, contents). -/
def generateCoreForChipTry (st : ProjectState) (chipNumber projectRoot : String)
    (version : Option String) : Except JsError (GenResult × List (String × String)) := do
  let finalVersion ← resolveVersion st projectRoot version
  let sourceDir := pathJoin projectRoot "source-7400"
  let rtlFileName := chipNumber ++ ".v"
  let tbFileName := chipNumber ++ "-tb.v"
  if (isExistingFile st sourceDir rtlFileName) = false then
    return ({ success := false
              message := "RTL file not found: " ++ pathJoin sourceDir rtlFileName }, [])
  else if (isExistingFile st sourceDir tbFileName) = false then
    return ({ success := false
              message := "Testbench file not found: " ++ pathJoin sourceDir tbFileName }, [])
  else do
    let rtlContent ← readFileHelper st sourceDir rtlFileName
    let tbContent ← readFileHelper st sourceDir tbFileName
    match extractModuleName rtlContent with
    | none =>
      return ({ success := false
                message := "Could not extract module name from " ++ rtlFileName }, [])
    | some rtlModuleName =>
      match extractModuleName tbContent with
      | none =>
        return ({ success := false
                  message := "Could not extract module name from " ++ tbFileName }, [])
      | some tbModuleName =>
        let coreContent := generateCoreFile chipNumber finalVersion rtlModuleName tbModuleName
        let coreFilePath := pathJoin projectRoot ("icechips_" ++ chipNumber ++ ".core")
        return ({ success := true
                  message := "Generated core file: " ++ coreFilePath
                  chipNumber := some chipNumber
                  rtlModuleName := some rtlModuleName
                  tbModuleName := some tbModuleName }, [(coreFilePath, coreContent)])

/-- `generateCoreForChip` from `generate-core.js`: the `try` body with its
`catch`, which converts any thrown error into a failure Result (and, having
thrown, performed no write). -/
def generateCoreForChip (st : ProjectState) (chipNumber projectRoot : String)
    (version : Option String) : GenResult × List (String × String) :=
  match generateCoreForChipTry st chipNumber projectRoot version with
  | Except.ok r => r
  | Except.error e =>
    ({ success := false
       message := "Error processing " ++ chipNumber ++ ": " ++ e.message }, [])

/-- `extractChipNumber` from `generate-cores.js`: full-string match of
`/^([0-9]+)\.v$/` (one or more digits then `.v`), with the additional
`-tb` exclusion check of the source, returning the digit sequence. -/
def extractChipNumber (fileName : String) : Option String :=
  let digits := fileName.data.takeWhile Char.isDigit
  let rest := fileName.data.dropWhile Char.isDigit
  if digits = [] then none
  else if rest = ['.', 'v'] then
    if strIncludes fileName "-tb" then none else some (String.mk digits)
  else none

/-- Model of the JS `Set` accumulation in `getAllChipNumbers`: keep the
first occurrence of each element (insertion order). -/
def dedupFirstAux (seen : List String) : List String → List String
  | [] => []
  | x :: xs =>
    if x ∈ seen then dedupFirstAux seen xs
    else x :: dedupFirstAux (x :: seen) xs

/-- De-duplicate, keeping first occurrences. -/
def dedupFirst (l : List String) : List String :=
  dedupFirstAux [] l

/-- Lexicographic comparison of character lists by code point (for the
ASCII strings handled here this coincides with the UTF-16 code-unit
comparison performed by the JS default sort comparator). -/
def charListLe : List Char → List Char → Bool
  | [], _ => true
  | _ :: _, [] => false
  | a :: as, b :: bs =>
    if a.toNat < b.toNat then true
    else if b.toNat < a.toNat then false
    else charListLe as bs

/-- The JS default sort comparator on strings. -/
def strLe (a b : String) : Bool :=
  charListLe a.data b.data

/-- Insert into a sorted list (one step of sorting). -/
def insertSorted (x : String) : List String → List String
  | [] => [x]
  | y :: ys => if strLe x y then x :: y :: ys else y :: insertSorted x ys

/-- Model of JS `Array.prototype.sort()` with its default comparator as an
insertion sort by `strLe`.  A sort of a list of strings by a total,
antisymmetric order has a unique result, so the choice of algorithm does
not matter. -/
def sortStrings (l : List String) : List String :=
  List.foldr insertSorted [] l

/-- Adjacently sorted ascending by the JS default sort comparator. -/
def SortedAsc (l : List String) : Prop :=
  List.Chain' (fun a b => strLe a b = true) l

/-- `getAllChipNumbers` from `generate-cores.js`, abstracted over the
directory listing (`fs.readdirSync` result): filter to `.v` entries that
are not testbenches, extract chip numbers, de-duplicate via a `Set`, and
sort. -/
def getAllChipNumbers (files : List String) : List String :=
  sortStrings (dedupFirst (files.filterMap fun fileName =>
    match strEndsWith fileName ".v" && !(strIncludes fileName "-tb.v") with
    | true => extractChipNumber fileName
    | false => none))

/-- The Result object of `runFuseSoCSim` in `test-core.js`. -/
structure SimResult where
  success : Bool
  output : Option String
  message : String
deriving DecidableEq

/-- `coreFileExists` from `test-core.js`: direct `fs.existsSync` check of
`<projectRoot>/icechips_<chipNumber>.core`. -/
def coreFileExists (st : ProjectState) (chipNumber projectRoot : String) : Bool :=
  (st.files.lookup (pathJoin projectRoot ("icechips_" ++ chipNumber ++ ".core"))).isSome

/-- `getFullCoreName` from `test-core.js`: version from the project
manifest (may throw), then `icechips:ttl:<chipNumber>:<version>`. -/
def getFullCoreName (st : ProjectState) (chipNumber projectRoot : String) :
    Except JsError String := do
  let version ← getVersionFromPackageJson st projectRoot
  return "icechips:ttl:" ++ chipNumber ++ ":" ++ version

/-- `parseCoreName` from `test-core.js`: an input containing a colon is
already a full core name and is returned unchanged; otherwise the core
file must exist, and the full core name is constructed. -/
def parseCoreName (st : ProjectState) (input projectRoot : String) :
    Except JsError String :=
  if (input.data.contains ':') = true then Except.ok input
  else if (coreFileExists st input projectRoot) = false then
    Except.error ⟨"Core file not found for chip " ++ input ++
      ". Expected: icechips_" ++ input ++ ".core"⟩
  else getFullCoreName st input projectRoot

/-- Observable outcome of the `test-core.js` `main` flow from identifier
resolution onward: either resolution failed (error printed, exit 1, the
orchestrator never invoked), or the simulation was run on the resolved
core name. -/
inductive TestCoreOutcome where
  | resolutionFailed (message : String)
  | ran (coreName : String) (result : SimResult)
deriving DecidableEq

/-- The `test-core.js` `main` flow from `parseCoreName` onward.  The
external orchestrator is abstracted as `sim`, the behaviour of
`runFuseSoCSim`; it is applied exactly when `main` reaches the simulation
step. -/
def testCoreMain (st : ProjectState) (input projectRoot : String)
    (sim : String → SimResult) : TestCoreOutcome :=
  match parseCoreName st input projectRoot with
  | Except.error e => TestCoreOutcome.resolutionFailed e.message
  | Except.ok coreName => TestCoreOutcome.ran coreName (sim coreName)

/-- Model of JS `output.split("\n")` on the character level. -/
def splitLinesAux (cur : List Char) : List Char → List String
  | [] => [String.mk cur.reverse]
  | c :: rest =>
    if c = '\n' then String.mk cur.reverse :: splitLinesAux [] rest
    else splitLinesAux (c :: cur) rest

/-- Model of JS `output.split("\n")`. -/
def splitLines (s : String) : List String :=
  splitLinesAux [] s.data

/-- The per-line extraction regex `/^(icechips:ttl:[^\s:]+)/` of
`getAllIceChipsCores` in `test-cores.js`: the literal prefix followed by
one or more characters that are neither whitespace nor a colon. -/
def matchCoreLine (line : String) : Option String :=
  match "icechips:ttl:".data.isPrefixOf line.data with
  | true =>
    match (line.data.drop 13).takeWhile (fun c => !(isSpaceChar c) && !(c == ':')) with
    | [] => none
    | t :: ok => some (String.mk ("icechips:ttl:".data ++ (t :: ok)))
  | false => none

/-- `getAllIceChipsCores` from `test-cores.js`, abstracted over the text
output of `fusesoc list-cores`: scan the lines containing
`icechips:ttl:` with the extraction regex, collect the matches, sort. -/
def getAllIceChipsCores (output : String) : List String :=
  sortStrings ((splitLines output).filterMap fun line =>
    match strIncludes line "icechips:ttl:" with
    | true => matchCoreLine line
    | false => none)

/-- `filterCores` from `test-cores.js`: retain the cores containing the
pattern as a substring (`null` pattern retains everything). -/
def filterCores (cores : List String) (pattern : Option String) : List String :=
  match pattern with
  | none => cores
  | some p => cores.filter fun core => strIncludes core p

/-- One entry of the `failures` list accumulated by the bulk test
runner. -/
structure FailureEntry where
  coreName : String
  message : String
  output : Option String
deriving DecidableEq

/-- The final report of the bulk test runner: the printed summary counts
and the process exit status. -/
structure BulkSummary where
  total : Nat
  successCount : Nat
  failureCount : Nat
  failures : List FailureEntry
  exitCode : Nat
deriving DecidableEq

/-- The core-testing loop and summary of `main` in `test-cores.js`: run
`sim` on every core in order, accumulate the success/failure counters and
the failure list, report `Total`/`Success`/`Failed`, and exit 1 exactly
when the failure list is non-empty (otherwise `main` falls through to
`All cores passed!` and the process exits 0).  `testCoresStep` is one
iteration of the `cores.forEach` loop body acting on the accumulated
`(successCount, failureCount, failures)` state. -/
def testCoresStep (sim : String → SimResult) (acc : Nat × Nat × List FailureEntry)
    (coreName : String) : Nat × Nat × List FailureEntry :=
  let result := sim coreName
  if result.success then (acc.1 + 1, acc.2.1, acc.2.2)
  else (acc.1, acc.2.1 + 1,
    acc.2.2 ++ [{ coreName := coreName, message := result.message
                  output := result.output }])

def testCoresRun (cores : List String) (sim : String → SimResult) : BulkSummary :=
  let folded := cores.foldl (testCoresStep sim) (0, 0, [])
  { total := cores.length
    successCount := folded.1
    failureCount := folded.2.1
    failures := folded.2.2
    exitCode := if folded.2.2.length > 0 then 1 else 0 }

/-! ## Helper lemmas -/

theorem containsSeq_iff (pat : List Char) :
    ∀ l : List Char, containsSeq pat l = true ↔ pat <:+: l
  | [] => by
    simp [containsSeq, List.isPrefixOf_iff_prefix]
  | c :: rest => by
    rw [containsSeq, Bool.or_eq_true, List.isPrefixOf_iff_prefix,
      containsSeq_iff pat rest]
    exact (List.infix_cons_iff).symm

theorem matchModuleAt_module_of_some {cs n : List Char}
    (h : matchModuleAt cs = some n) : "module".data <:+: cs := by
  have hsuf : cs.dropWhile isSpaceChar <:+ cs := List.dropWhile_suffix isSpaceChar
  by_cases hp : ("module".data.isPrefixOf (cs.dropWhile isSpaceChar)) = true
  · exact (( List.isPrefixOf_iff_prefix.mp hp).isInfix).trans hsuf.isInfix
  · rw [matchModuleAt] at h
    rw [Bool.not_eq_true] at hp
    rw [hp] at h
    exact Option.noConfusion h

theorem scanModule_module_of_some :
    ∀ (cs : List Char) (b : Bool) (n : List Char),
      scanModule cs b = some n → "module".data <:+: cs
  | [], b, n, h => Option.noConfusion h
  | c :: rest, b, n, h => by
    cases b with
    | false =>
      rw [scanModule] at h
      exact List.infix_cons (scanModule_module_of_some rest (isNewlineChar c) n h)
    | true =>
      rw [scanModule] at h
      cases hm : matchModuleAt (c :: rest) with
      | some m => exact matchModuleAt_module_of_some hm
      | none =>
        rw [hm] at h
        exact List.infix_cons (scanModule_module_of_some rest (isNewlineChar c) n h)

theorem except_bind_ok {ε α β : Type} (a : α) (f : α → Except ε β) :
    (do let x ← (Except.ok a : Except ε α); f x) = f a := rfl

theorem except_bind_error {ε α β : Type} (e : ε) (f : α → Except ε β) :
    (do let x ← (Except.error e : Except ε α); f x) = Except.error e := rfl

theorem except_map_ok {ε α β : Type} (f : α → β) (a : α) :
    (f <$> (Except.ok a : Except ε α)) = Except.ok (f a) := rfl

theorem except_map_error {ε α β : Type} (f : α → β) (e : ε) :
    (f <$> (Except.error e : Except ε α)) = (Except.error e : Except ε β) := rfl

/-! ## C2 — `extractModuleName` -/

/-- C2, counterexample: the claim "if the text contains a line of the form
`module foo(` then `extractModuleName` returns `foo`" fails on the text
`"module bar;\nmodule foo("`, which contains the line `module foo(` but
whose first module declaration is `module bar;`: the function returns
`bar`, not `foo`. -/
theorem extractModuleName_counterexample :
    strIncludes "module bar;\nmodule foo(" "\nmodule foo(" = true ∧
    extractModuleName "module bar;\nmodule foo(" = some "bar" ∧
    extractModuleName "module bar;\nmodule foo(" ≠ some "foo" := by
  refine ⟨rfl, rfl, ?_⟩
  intro h
  exact absurd ((Option.some.injEq _ _).mp h) (by decide)

/-- C2 (amended): if the text *begins with* the declaration `module foo(`
the function returns `foo`; if it begins with `module bar;` it returns
`bar`; if the text does not contain the keyword `module` at all it returns
`none`.  (In general the function returns the word-identifier of the first
position, at a line start modulo leading whitespace, where `module`,
whitespace, an identifier and then `#`, `(` or `;` occur — so a text
containing a `module foo(` line may still return an earlier declaration's
name, as the counterexample shows.) -/
theorem extractModuleName_spec :
    (∀ rest : String, extractModuleName ("module foo(" ++ rest) = some "foo") ∧
    (∀ rest : String, extractModuleName ("module bar;" ++ rest) = some "bar") ∧
    (∀ text : String, containsSeq "module".data text.data = false →
      extractModuleName text = none) := by
  refine ⟨fun rest => rfl, fun rest => rfl, fun text h => ?_⟩
  cases hm : scanModule text.data true with
  | none => simp [extractModuleName, hm]
  | some n =>
    have hinf := scanModule_module_of_some text.data true n hm
    rw [← containsSeq_iff] at hinf
    rw [h] at hinf
    exact Bool.noConfusion hinf

/-- C2, witness: the amended theorem applied to the one-line text
`module foo(` and to a text without the `module` keyword. -/
theorem extractModuleName_spec_witness :
    extractModuleName ("module foo(" ++ "\nendmodule") = some "foo" ∧
    extractModuleName "hello world" = none :=
  ⟨extractModuleName_spec.1 "\nendmodule",
   extractModuleName_spec.2.2 "hello world" (by decide)⟩

/-! ## C3 — `generateCoreFile` renders exactly the documented template -/

set_option maxRecDepth 4000 in
/-- C3: `generateCoreFile` is modelled as a total function of exactly its
four inputs (so it performs no I/O and identical inputs yield byte-identical
output), and for every input its output is exactly the spec §6 manifest
template with the four values interpolated at the documented positions
(the `name:` line, the two fileset file paths, and the two `toplevel:`
lines). -/
theorem generateCoreFile_eq_template (chipNumber version rtlModuleName tbModuleName : String) :
    generateCoreFile chipNumber version rtlModuleName tbModuleName =
      renderManifestSpec chipNumber version rtlModuleName tbModuleName := by
  apply String.ext
  simp [generateCoreFile, renderManifestSpec, joinLines, String.data_append]

/-! ## C5 — `getVersionFromPackageJson` -/

/-- C5, counterexample: a readable, parseable manifest whose `version`
field is *present* with value `""` does not get its field returned
verbatim — `packageJson.version || "0.1.0"` treats the empty string as
falsy and returns the default `"0.1.0"`. -/
theorem getVersionFromPackageJson_counterexample :
    getVersionFromPackageJson
        ⟨[("/proj/package.json", "manifest-body")],
         fun _ => Except.ok ⟨some ""⟩⟩ "/proj" = Except.ok "0.1.0" ∧
    ("0.1.0" : String) ≠ "" := ⟨rfl, by decide⟩

/-- C5 (amended): with a readable, parseable project manifest, the function
returns the `version` field verbatim whenever the field is present and
non-empty, and returns `"0.1.0"` when the field is absent — or present but
equal to the empty string, which JS `||` also maps to the default. -/
theorem getVersionFromPackageJson_spec (st : ProjectState) (root content : String)
    (pkg : PackageJson)
    (hfile : st.files.lookup (pathJoin root "package.json") = some content)
    (hparse : st.parseManifest content = Except.ok pkg) :
    (∀ v, pkg.version = some v → v ≠ "" →
        getVersionFromPackageJson st root = Except.ok v) ∧
    (pkg.version = none →
        getVersionFromPackageJson st root = Except.ok "0.1.0") ∧
    (pkg.version = some "" →
        getVersionFromPackageJson st root = Except.ok "0.1.0") := by
  have hread : readFileFs st (pathJoin root "package.json") = Except.ok content := by
    unfold readFileFs
    rw [hfile]
  refine ⟨fun v hv hne => ?_, fun hv => ?_, fun hv => ?_⟩
  · simp [getVersionFromPackageJson, hread, hparse, hv, jsOrDefault,
      except_bind_ok, except_map_ok, hne]
  · simp [getVersionFromPackageJson, hread, hparse, hv, jsOrDefault,
      except_bind_ok, except_map_ok]
  · simp [getVersionFromPackageJson, hread, hparse, hv, jsOrDefault,
      except_bind_ok, except_map_ok]

/-- C5, witness: a manifest with `version` `"0.9.2"` yields `"0.9.2"`. -/
theorem getVersionFromPackageJson_spec_witness :
    getVersionFromPackageJson
        ⟨[("/proj/package.json", "manifest-body")],
         fun _ => Except.ok ⟨some "0.9.2"⟩⟩ "/proj" = Except.ok "0.9.2" :=
  (getVersionFromPackageJson_spec
      ⟨[("/proj/package.json", "manifest-body")], fun _ => Except.ok ⟨some "0.9.2"⟩⟩
      "/proj" "manifest-body" ⟨some "0.9.2"⟩ rfl rfl).1 "0.9.2" rfl (by decide)

/-! ## C1 — error propagation of `generateCoreForChip` -/

/-- C1, counterexample: on a project root with no readable `package.json`,
the manifest read failure during version lookup is raised inside the `try`
body (first conjunct) but `generateCoreForChip` still returns a failure
Result (second conjunct) — the error is caught by the surrounding
try/catch and does not propagate to the caller, contrary to the claim. -/
theorem generateCoreForChip_manifest_error_counterexample :
    generateCoreForChipTry ⟨[], fun _ => Except.ok ⟨none⟩⟩ "7400" "/proj" none =
      Except.error
        ⟨"ENOENT: no such file or directory, open \x27/proj/package.json\x27"⟩ ∧
    generateCoreForChip ⟨[], fun _ => Except.ok ⟨none⟩⟩ "7400" "/proj" none =
      ({ success := false
         message := "Error processing 7400: ENOENT: no such file or directory, open \x27/proj/package.json\x27" },
       []) :=
  ⟨rfl, rfl⟩

/-- C1 (amended): every internal failure of `generateCoreForChip` —
*including* a read/parse failure of the project manifest during version
lookup — is converted by the surrounding try/catch into a failure Result
with no write performed; no error propagates out of the function. -/
theorem generateCoreForChip_manifest_error_caught (st : ProjectState)
    (chip root : String) (version : Option String) (e : JsError)
    (h : resolveVersion st root version = Except.error e) :
    generateCoreForChip st chip root version =
      ({ success := false
         message := "Error processing " ++ chip ++ ": " ++ e.message }, []) := by
  unfold generateCoreForChip generateCoreForChipTry
  simp [h, except_bind_error]

/-- C1, witness: the amended theorem applied to a state with no
`package.json`. -/
theorem generateCoreForChip_manifest_error_caught_witness :
    generateCoreForChip ⟨[], fun _ => Except.ok ⟨none⟩⟩ "74161" "/proj" none =
      ({ success := false
         message := "Error processing 74161: ENOENT: no such file or directory, open \x27/proj/package.json\x27" },
       []) :=
  generateCoreForChip_manifest_error_caught ⟨[], fun _ => Except.ok ⟨none⟩⟩
    "74161" "/proj" none
    ⟨"ENOENT: no such file or directory, open \x27/proj/package.json\x27"⟩ rfl

/-! ## C6 — missing RTL file -/

/-- C6: when version resolution succeeds (an explicit version was supplied
or the project manifest is readable — the lookup precedes the file check)
and the RTL source file `<chip>.v` does not exist in the chip-source
directory, `generateCoreForChip` returns success=false with a message
naming the missing RTL file path, and performs no write. -/
theorem generateCoreForChip_missing_rtl (st : ProjectState) (chip root : String)
    (version : Option String) (v : String)
    (hver : resolveVersion st root version = Except.ok v)
    (hmiss : isExistingFile st (pathJoin root "source-7400") (chip ++ ".v") = false) :
    generateCoreForChip st chip root version =
      ({ success := false
         message := "RTL file not found: " ++
           pathJoin (pathJoin root "source-7400") (chip ++ ".v") }, []) := by
  unfold generateCoreForChip generateCoreForChipTry
  simp [hver, hmiss, except_bind_ok]

/-- C6, witness: chip `99999` on a root whose manifest has version
`"0.9.2"` and whose chip-source directory is empty. -/
theorem generateCoreForChip_missing_rtl_witness :
    generateCoreForChip
        ⟨[("/proj/package.json", "manifest-body")],
         fun _ => Except.ok ⟨some "0.9.2"⟩⟩ "99999" "/proj" none =
      ({ success := false
         message := "RTL file not found: /proj/source-7400/99999.v" }, []) :=
  generateCoreForChip_missing_rtl
    ⟨[("/proj/package.json", "manifest-body")], fun _ => Except.ok ⟨some "0.9.2"⟩⟩
    "99999" "/proj" none "0.9.2" rfl rfl

/-! ## Sorting and de-duplication lemmas -/

theorem charListLe_total : ∀ as bs : List Char,
    charListLe as bs = true ∨ charListLe bs as = true
  | [], bs => Or.inl rfl
  | _ :: _, [] => Or.inr rfl
  | a :: as, b :: bs => by
    rcases Nat.lt_trichotomy a.toNat b.toNat with h | h | h
    · left
      simp [charListLe, h]
    · have h2 : ¬ a.toNat < b.toNat := by omega
      have h3 : ¬ b.toNat < a.toNat := by omega
      rcases charListLe_total as bs with ih | ih
      · left
        simp [charListLe, h2, h3, ih]
      · right
        simp [charListLe, h2, h3, ih]
    · right
      simp [charListLe, h]

theorem strLe_total (a b : String) : strLe a b = true ∨ strLe b a = true :=
  charListLe_total a.data b.data

theorem insertSorted_perm (x : String) :
    ∀ l : List String, List.Perm (insertSorted x l) (x :: l)
  | [] => List.Perm.refl _
  | y :: ys => by
    by_cases h : strLe x y = true
    · simp [insertSorted, h]
    · simp only [insertSorted, if_neg h]
      exact (((insertSorted_perm x ys).cons y).trans (List.Perm.swap x y ys))

theorem sortStrings_perm : ∀ l : List String, List.Perm (sortStrings l) l
  | [] => List.Perm.refl _
  | x :: xs =>
    (insertSorted_perm x (sortStrings xs)).trans ((sortStrings_perm xs).cons x)

theorem head_insertSorted (x : String) (l : List String) :
    (insertSorted x l).head? = some x ∨ (insertSorted x l).head? = l.head? := by
  cases l with
  | nil => exact Or.inl rfl
  | cons y ys =>
    by_cases h : strLe x y = true
    · left
      simp [insertSorted, h]
    · right
      simp [insertSorted, h]

theorem sortedAsc_insertSorted (x : String) :
    ∀ l : List String, SortedAsc l → SortedAsc (insertSorted x l)
  | [], _ => by simp [insertSorted, SortedAsc]
  | y :: ys, h => by
    rw [SortedAsc, List.chain'_cons'] at h
    by_cases hxy : strLe x y = true
    · rw [SortedAsc]
      simp only [insertSorted, if_pos hxy]
      rw [List.chain'_cons']
      refine ⟨?_, List.chain'_cons'.mpr h⟩
      intro z hz
      simp only [List.head?_cons, Option.mem_def, Option.some.injEq] at hz
      rw [← hz]
      exact hxy
    · have hyx : strLe y x = true := (strLe_total x y).resolve_left hxy
      rw [SortedAsc]
      simp only [insertSorted, if_neg hxy]
      rw [List.chain'_cons']
      refine ⟨?_, sortedAsc_insertSorted x ys h.2⟩
      intro z hz
      rcases head_insertSorted x ys with hh | hh
      · rw [hh] at hz
        simp only [Option.mem_def, Option.some.injEq] at hz
        rw [← hz]
        exact hyx
      · rw [hh] at hz
        exact h.1 z hz

theorem sortedAsc_sortStrings : ∀ l : List String, SortedAsc (sortStrings l)
  | [] => List.chain'_nil
  | x :: xs => sortedAsc_insertSorted x (sortStrings xs) (sortedAsc_sortStrings xs)

theorem mem_dedupFirstAux (x : String) : ∀ (l seen : List String),
    x ∈ dedupFirstAux seen l ↔ (x ∈ l ∧ x ∉ seen)
  | [], seen => by simp [dedupFirstAux]
  | y :: ys, seen => by
    by_cases h : y ∈ seen
    · rw [dedupFirstAux, if_pos h, mem_dedupFirstAux x ys seen]
      constructor
      · rintro ⟨hm, hs⟩
        exact ⟨List.mem_cons_of_mem y hm, hs⟩
      · rintro ⟨hm, hs⟩
        rcases List.mem_cons.mp hm with rfl | hm2
        · exact absurd h hs
        · exact ⟨hm2, hs⟩
    · rw [dedupFirstAux, if_neg h, List.mem_cons, mem_dedupFirstAux x ys (y :: seen)]
      constructor
      · rintro (rfl | ⟨hm, hs⟩)
        · exact ⟨List.mem_cons_self x ys, h⟩
        · refine ⟨List.mem_cons_of_mem y hm, fun hx => hs (List.mem_cons_of_mem y hx)⟩
      · rintro ⟨hm, hs⟩
        by_cases hxy : x = y
        · exact Or.inl hxy
        · have hm2 : x ∈ ys := (List.mem_cons.mp hm).resolve_left hxy
          right
          refine ⟨hm2, fun hx => ?_⟩
          rcases List.mem_cons.mp hx with e | e
          · exact hxy e
          · exact hs e

theorem nodup_dedupFirstAux : ∀ (l seen : List String), (dedupFirstAux seen l).Nodup
  | [], _ => List.nodup_nil
  | y :: ys, seen => by
    by_cases h : y ∈ seen
    · rw [dedupFirstAux, if_pos h]
      exact nodup_dedupFirstAux ys seen
    · rw [dedupFirstAux, if_neg h]
      refine List.nodup_cons.mpr ⟨?_, nodup_dedupFirstAux ys (y :: seen)⟩
      intro hy
      exact ((mem_dedupFirstAux y ys (y :: seen)).mp hy).2 (List.mem_cons_self y seen)

theorem mem_dedupFirst (x : String) (l : List String) : x ∈ dedupFirst l ↔ x ∈ l := by
  rw [dedupFirst, mem_dedupFirstAux]
  simp

theorem mem_sortStrings (x : String) (l : List String) : x ∈ sortStrings l ↔ x ∈ l :=
  (sortStrings_perm l).mem_iff

/-! ## C4 — bulk chip discovery -/

theorem extractChipNumber_eq_some {f s : String} (h : extractChipNumber f = some s) :
    f.data.takeWhile Char.isDigit ≠ [] ∧
    f.data.dropWhile Char.isDigit = ['.', 'v'] ∧
    strIncludes f "-tb" = false ∧
    s = String.mk (f.data.takeWhile Char.isDigit) := by
  simp only [extractChipNumber] at h
  by_cases h1 : f.data.takeWhile Char.isDigit = []
  · rw [if_pos h1] at h
    exact absurd h (by simp)
  · rw [if_neg h1] at h
    by_cases h2 : f.data.dropWhile Char.isDigit = ['.', 'v']
    · rw [if_pos h2] at h
      by_cases h3 : strIncludes f "-tb" = true
      · rw [if_pos h3] at h
        exact absurd h (by simp)
      · rw [if_neg h3] at h
        refine ⟨h1, h2, by simpa using h3, ?_⟩
        exact ((Option.some.injEq _ _).mp h).symm
    · rw [if_neg h2] at h
      exact absurd h (by simp)

theorem extractChipNumber_filters {f s : String} (h : extractChipNumber f = some s) :
    strEndsWith f ".v" = true ∧ strIncludes f "-tb.v" = false := by
  obtain ⟨h1, h2, h3, _⟩ := extractChipNumber_eq_some h
  have hfeq : f.data = f.data.takeWhile Char.isDigit ++ ['.', 'v'] := by
    conv_lhs => rw [← List.takeWhile_append_dropWhile Char.isDigit f.data]
    rw [h2]
  constructor
  · refine (List.isSuffixOf_iff_suffix).mpr ?_
    exact ⟨f.data.takeWhile Char.isDigit, hfeq.symm⟩
  · by_contra hc
    rw [Bool.not_eq_false] at hc
    have hinf : "-tb.v".data <:+: f.data := (containsSeq_iff _ _).mp hc
    have hmem : '-' ∈ f.data := hinf.subset (by decide)
    rw [hfeq] at hmem
    rcases List.mem_append.mp hmem with hm | hm
    · exact absurd (List.mem_takeWhile_imp hm) (by decide)
    · exact absurd hm (by decide)

/-- C4: bulk chip discovery over a directory listing returns exactly the
digit sequences of the entries matched by `extractChipNumber` (one or more
digits followed by `.v`, names containing `-tb` excluded), de-duplicated
and sorted ascending by the JS default comparator; a name that does not
fit the `<digits>.v` pattern, such as `readme.v`, is never extracted, so
it is never attempted as a chip. -/
theorem getAllChipNumbers_spec (files : List String) :
    SortedAsc (getAllChipNumbers files) ∧
    (getAllChipNumbers files).Nodup ∧
    (∀ s, s ∈ getAllChipNumbers files ↔
      ∃ f, f ∈ files ∧ extractChipNumber f = some s) ∧
    extractChipNumber "readme.v" = none := by
  refine ⟨sortedAsc_sortStrings _, ?_, ?_, rfl⟩
  · exact ((sortStrings_perm _).nodup_iff).mpr (nodup_dedupFirstAux _ [])
  · intro s
    rw [getAllChipNumbers, mem_sortStrings, mem_dedupFirst, List.mem_filterMap]
    constructor
    · rintro ⟨f, hf, hg⟩
      refine ⟨f, hf, ?_⟩
      cases hcond : (strEndsWith f ".v" && !(strIncludes f "-tb.v")) with
      | true =>
        rw [hcond] at hg
        exact hg
      | false =>
        rw [hcond] at hg
        exact absurd hg (by simp)
    · rintro ⟨f, hf, hx⟩
      refine ⟨f, hf, ?_⟩
      have hfl := extractChipNumber_filters hx
      rw [hfl.1, hfl.2]
      exact hx

/-- C4, witness: the spec §8 example listing. -/
theorem getAllChipNumbers_spec_witness :
    "7400" ∈ getAllChipNumbers ["74161.v", "74161-tb.v", "7400.v", "7400-tb.v", "readme.v"] :=
  ((getAllChipNumbers_spec ["74161.v", "74161-tb.v", "7400.v", "7400-tb.v", "readme.v"]
    ).2.2.1 "7400").mpr ⟨"7400.v", by decide, rfl⟩

/-! ## C10 — truncated core names from bulk discovery -/

theorem matchCoreLine_eq_some {line name : String} (h : matchCoreLine line = some name) :
    ∃ chip : List Char, chip ≠ [] ∧
      (∀ c ∈ chip, isSpaceChar c = false ∧ c ≠ ':') ∧
      name.data = "icechips:ttl:".data ++ chip := by
  unfold matchCoreLine at h
  cases hp : ("icechips:ttl:".data.isPrefixOf line.data) with
  | false =>
    rw [hp] at h
    exact absurd h (by simp)
  | true =>
    rw [hp] at h
    cases htk : ((line.data.drop 13).takeWhile fun c => !(isSpaceChar c) && !(c == ':')) with
    | nil =>
      rw [htk] at h
      exact absurd h (by simp)
    | cons t ok =>
      rw [htk] at h
      refine ⟨t :: ok, by simp, ?_, ?_⟩
      · intro c hc
        have hmem : c ∈ (line.data.drop 13).takeWhile
            fun c => !(isSpaceChar c) && !(c == ':') := by
          rw [htk]
          exact hc
        have hpred := List.mem_takeWhile_imp hmem
        simp only [Bool.and_eq_true, Bool.not_eq_true'] at hpred
        exact ⟨hpred.1, by simpa using hpred.2⟩
      · rw [← (Option.some.injEq _ _).mp h]

/-- C10: every core name produced by the bulk test runner's discovery —
and hence every name handed to the simulation invocation, since `main`
runs exactly the (optionally filtered) discovery output — consists of the
fixed prefix `icechips:ttl:` followed by a non-empty chip token containing
neither whitespace nor a colon: exactly three colon-delimited parts
(colon count 2), never including the fourth (version) component, because
the extraction pattern `[^\s:]+` stops at the colon preceding the
version. -/
theorem getAllIceChipsCores_truncated (output : String) (pattern : Option String)
    (name : String) (h : name ∈ filterCores (getAllIceChipsCores output) pattern) :
    ∃ chip : List Char, chip ≠ [] ∧
      (∀ c ∈ chip, isSpaceChar c = false ∧ c ≠ ':') ∧
      name.data = "icechips:ttl:".data ++ chip ∧
      name.data.count ':' = 2 := by
  have hmem : name ∈ getAllIceChipsCores output := by
    cases pattern with
    | none => exact h
    | some p => exact List.mem_of_mem_filter h
  rw [getAllIceChipsCores, mem_sortStrings, List.mem_filterMap] at hmem
  obtain ⟨line, hline, hg⟩ := hmem
  have hmc : matchCoreLine line = some name := by
    cases hc : strIncludes line "icechips:ttl:" with
    | true =>
      rw [hc] at hg
      exact hg
    | false =>
      rw [hc] at hg
      exact absurd hg (by simp)
  obtain ⟨chip, hne, hchars, hdata⟩ := matchCoreLine_eq_some hmc
  refine ⟨chip, hne, hchars, hdata, ?_⟩
  rw [hdata, List.count_append]
  rw [List.count_eq_zero.mpr (fun hc => (hchars ':' hc).2 rfl)]
  decide

/-- C10, witness: one `fusesoc list-cores` output line carrying the
registered core `icechips:ttl:7400:0.9.2` is truncated to the three-part
name. -/
theorem getAllIceChipsCores_truncated_witness :
    ∃ chip : List Char, chip ≠ [] ∧
      (∀ c ∈ chip, isSpaceChar c = false ∧ c ≠ ':') ∧
      ("icechips:ttl:7400" : String).data = "icechips:ttl:".data ++ chip ∧
      ("icechips:ttl:7400" : String).data.count ':' = 2 :=
  getAllIceChipsCores_truncated "icechips:ttl:7400:0.9.2 : /x/icechips_7400.core"
    none "icechips:ttl:7400" (by decide)

/-! ## C7 / C8 — single-core test runner identifier resolution -/

/-- C7: for a bare chip identifier (no colon in the input) whose manifest
file `icechips_<chip>.core` does not exist at the project root,
identifier resolution fails with the "Core file not found" error, the
`main` flow stops at `resolutionFailed`, and the orchestrator (`sim`) is
never invoked. -/
theorem testCoreMain_core_file_missing (st : ProjectState) (input root : String)
    (sim : String → SimResult)
    (hcolon : (input.data.contains ':') = false)
    (hmiss : coreFileExists st input root = false) :
    parseCoreName st input root =
      Except.error ⟨"Core file not found for chip " ++ input ++
        ". Expected: icechips_" ++ input ++ ".core"⟩ ∧
    testCoreMain st input root sim =
      TestCoreOutcome.resolutionFailed ("Core file not found for chip " ++ input ++
        ". Expected: icechips_" ++ input ++ ".core") ∧
    (∀ (name : String) (r : SimResult),
      testCoreMain st input root sim ≠ TestCoreOutcome.ran name r) := by
  have hp : parseCoreName st input root =
      Except.error ⟨"Core file not found for chip " ++ input ++
        ". Expected: icechips_" ++ input ++ ".core"⟩ := by
    have h2 : ':' ∉ input.data := by simpa using hcolon
    unfold parseCoreName
    simp [h2, hmiss]
  refine ⟨hp, ?_, ?_⟩
  · unfold testCoreMain
    rw [hp]
  · intro name r h
    unfold testCoreMain at h
    rw [hp] at h
    exact TestCoreOutcome.noConfusion h

/-- C7, witness: chip `12345` on an empty project root. -/
theorem testCoreMain_core_file_missing_witness :
    testCoreMain ⟨[], fun _ => Except.ok ⟨none⟩⟩ "12345" "/proj"
        (fun coreName => ⟨true, none, coreName⟩) =
      TestCoreOutcome.resolutionFailed
        "Core file not found for chip 12345. Expected: icechips_12345.core" :=
  (testCoreMain_core_file_missing ⟨[], fun _ => Except.ok ⟨none⟩⟩ "12345" "/proj"
    (fun coreName => ⟨true, none, coreName⟩) rfl rfl).2.1

/-- C8: an input containing a colon is returned unchanged by identifier
resolution, independently of the entire filesystem state and project root
(no filesystem lookup and no project-manifest read can influence the
result), and the `main` flow forwards exactly that string to the
simulation invocation. -/
theorem testCoreMain_qualified_passthrough (st st2 : ProjectState)
    (input root root2 : String) (sim : String → SimResult)
    (hcolon : (input.data.contains ':') = true) :
    parseCoreName st input root = Except.ok input ∧
    testCoreMain st input root sim = TestCoreOutcome.ran input (sim input) ∧
    parseCoreName st input root = parseCoreName st2 input root2 := by
  have hp : ∀ (s : ProjectState) (r : String), parseCoreName s input r = Except.ok input := by
    intro s r
    have h2 : ':' ∈ input.data := by simpa using hcolon
    unfold parseCoreName
    simp [h2]
  refine ⟨hp st root, ?_, (hp st root).trans (hp st2 root2).symm⟩
  unfold testCoreMain
  rw [hp st root]

/-- C8, witness: the fully qualified identifier `icechips:ttl:74161:0.9.2`
is forwarded unchanged. -/
theorem testCoreMain_qualified_passthrough_witness :
    testCoreMain ⟨[], fun _ => Except.ok ⟨none⟩⟩ "icechips:ttl:74161:0.9.2" "/proj"
        (fun coreName => ⟨true, none, coreName⟩) =
      TestCoreOutcome.ran "icechips:ttl:74161:0.9.2"
        ⟨true, none, "icechips:ttl:74161:0.9.2"⟩ :=
  (testCoreMain_qualified_passthrough ⟨[], fun _ => Except.ok ⟨none⟩⟩
    ⟨[("x", "y")], fun _ => Except.error ⟨"e"⟩⟩ "icechips:ttl:74161:0.9.2"
    "/proj" "/other" (fun coreName => ⟨true, none, coreName⟩) rfl).2.1

/-! ## C9 — bulk test runner summary -/

theorem testCoresFold (sim : String → SimResult) :
    ∀ (cores : List String) (a b : Nat) (fl : List FailureEntry),
      cores.foldl (testCoresStep sim) (a, b, fl) =
        (a + (cores.filter fun c => (sim c).success).length,
         b + (cores.filter fun c => !(sim c).success).length,
         fl ++ ((cores.filter fun c => !(sim c).success).map
            fun c => { coreName := c, message := (sim c).message
                       output := (sim c).output }))
  | [], a, b, fl => by simp
  | c :: cs, a, b, fl => by
    rw [List.foldl_cons]
    by_cases h : (sim c).success = true
    · rw [show testCoresStep sim (a, b, fl) c = (a + 1, b, fl) by
        simp [testCoresStep, h]]
      rw [testCoresFold sim cs (a + 1) b fl]
      simp [List.filter_cons, h]
      omega
    · rw [show testCoresStep sim (a, b, fl) c =
          (a, b + 1, fl ++ [{ coreName := c, message := (sim c).message
                              output := (sim c).output }]) by
        simp [testCoresStep, h]]
      rw [testCoresFold sim cs a (b + 1) _]
      simp [List.filter_cons, h]
      omega

/-- C9: over any list of discovered cores of which `k` simulations fail,
the bulk test runner reports Total = the number of cores, Failed = `k`,
Success = Total − `k` (so Success + Failed = Total); the failure listing
records exactly the failing cores, in order, each exactly once (so every
core is processed and no failure stops the loop); and the process exit
status is 1 exactly when `k > 0`, else 0. -/
theorem testCoresRun_summary (cores : List String) (sim : String → SimResult) :
    (testCoresRun cores sim).total = cores.length ∧
    (testCoresRun cores sim).failureCount =
      (cores.filter fun c => !(sim c).success).length ∧
    (testCoresRun cores sim).successCount =
      cores.length - (cores.filter fun c => !(sim c).success).length ∧
    (testCoresRun cores sim).successCount + (testCoresRun cores sim).failureCount =
      cores.length ∧
    (testCoresRun cores sim).failures =
      ((cores.filter fun c => !(sim c).success).map
        fun c => { coreName := c, message := (sim c).message
                   output := (sim c).output }) ∧
    (testCoresRun cores sim).exitCode =
      (if 0 < (cores.filter fun c => !(sim c).success).length then 1 else 0) := by
  have hlen : (cores.filter fun c => (sim c).success).length +
      (cores.filter fun c => !(sim c).success).length = cores.length := by
    induction cores with
    | nil => rfl
    | cons c cs ih =>
      by_cases h : (sim c).success = true
      · simp [List.filter_cons, h]
        omega
      · simp [List.filter_cons, h]
        omega
  unfold testCoresRun
  rw [testCoresFold sim cores 0 0 []]
  simp only [Nat.zero_add, List.nil_append, List.length_map]
  exact ⟨trivial, trivial, by omega, hlen, trivial, trivial⟩

end IceChips
